import Mathlib

/-!
Shallow embedding of `ranking_updater.py` (a JPA pool-league division ranking
updater) together with a verification of the specification claims about it.

Python strings are modelled as `List Char`.  The collaborators that the
specification declares out of scope (raw network fetch, HTML DOM traversal,
PDF-to-text extraction, JSON persistence) appear as explicit inputs: a fetch
or download that failed is `none`, a downloaded PDF is the list of its page
texts, the persisted snapshot on disk is an `Option Snapshot`.

Regex use in the source is embedded by hand-specialised matchers that follow
the Python `re` semantics (leftmost match, greedy quantifiers with the forced
maximal-run boundaries of the concrete patterns, lazy groups extended one
character at a time, lookaheads consuming nothing, `re.match` anchored at the
start only, `re.finditer` scanning non-overlapping matches left to right).
-/

namespace JpaRanking

/-- Python strings are modelled as lists of characters. -/
abbrev PyStr := List Char

/-- The `\s` regex class / Python whitespace for the characters occurring here. -/
def isWs (c : Char) : Bool := c.isWhitespace

/-- Python `str.strip()` (remove whitespace at both ends). -/
def pyStrip (l : PyStr) : PyStr := ((l.dropWhile isWs).reverse.dropWhile isWs).reverse

/-- Python `str.rstrip()`. -/
def pyRstrip (l : PyStr) : PyStr := (l.reverse.dropWhile isWs).reverse

/-- Python `str.split()` with no separator: split on whitespace runs, dropping empties. -/
def pySplitWs (l : PyStr) : List PyStr := (l.splitOnP isWs).filter (· ≠ [])

/-- Python `s.isdigit()`, restricted to ASCII digits (all inputs here are ASCII). -/
def isDigitStr (l : PyStr) : Bool := !l.isEmpty && l.all Char.isDigit

/-- Numeric value of an ASCII digit run. -/
def digitsToNat (l : PyStr) : Nat := l.foldl (fun n c => n * 10 + (c.toNat - 48)) 0

/-- Python `int(s)` on a whitespace-free token: optional sign followed by digits. -/
def pyInt? (l : PyStr) : Option Int :=
  match l with
  | '-' :: rest => if isDigitStr rest then some (-(digitsToNat rest : Int)) else none
  | '+' :: rest => if isDigitStr rest then some ((digitsToNat rest : Int)) else none
  | _ => if isDigitStr l then some ((digitsToNat l : Int)) else none

/-- Leftmost index of substring `pat` in a string (Python `str.find`; `none` for -1). -/
def subFind (pat : PyStr) : PyStr → Option Nat
  | [] => if pat.isEmpty then some 0 else none
  | c :: rest =>
    if pat.isPrefixOf (c :: rest) then some 0
    else (subFind pat rest).map (· + 1)

/-- Python substring containment `pat in l`. -/
def hasSub (pat : PyStr) : PyStr → Bool
  | [] => pat.isEmpty
  | c :: rest => pat.isPrefixOf (c :: rest) || hasSub pat rest

/-- Python `s.split(sep)` for a nonempty separator: split at each
non-overlapping occurrence, scanning left to right (fuelled by the input
length, which bounds the number of steps). -/
def pySplitFuel (sep : PyStr) : Nat → PyStr → PyStr → List PyStr
  | _, [], acc => [acc.reverse]
  | 0, l, acc => [acc.reverse ++ l]
  | fuel + 1, c :: rest, acc =>
    if !sep.isEmpty && sep.isPrefixOf (c :: rest) then
      acc.reverse :: pySplitFuel sep fuel ((c :: rest).drop sep.length) []
    else pySplitFuel sep fuel rest (c :: acc)

/-- Python `s.split(sep)` (nonempty `sep`). -/
def pySplit (sep l : PyStr) : List PyStr := pySplitFuel sep (l.length + 1) l []

/-- Lexicographic (code-point) comparison, Python `str < str`. -/
def lexLt : PyStr → PyStr → Bool
  | [], [] => false
  | [], _ :: _ => true
  | _ :: _, [] => false
  | a :: l1, b :: l2 =>
    if a.toNat < b.toNat then true
    else if b.toNat < a.toNat then false
    else lexLt l1 l2

/-- Lexicographic (code-point) comparison, Python `str <= str`. -/
def lexLe (a b : PyStr) : Bool := !lexLt b a

/-- Python truthiness of an optional string (`None` and `''` are falsy). -/
def pyTruthyO : Option String → Bool
  | none => false
  | some s => s ≠ ""

/-- Python `a or b` on optional strings. -/
def pyOrO (a b : Option String) : Option String := if pyTruthyO a then a else b

/-- Python `a or d` where the fallback `d` is a plain string. -/
def pyOrS (a : Option String) (d : String) : String :=
  match a with
  | some s => if s = "" then d else s
  | none => d

/-- Stable insertion for the stable sorts used below (`x` is placed before the
first element `y` with `le x y`; on ties the earlier, already-placed element
stays in front because insertion proceeds from the back of the input). -/
def insertLe {α : Type} (le : α → α → Bool) (x : α) : List α → List α
  | [] => [x]
  | y :: ys => if le x y then x :: y :: ys else y :: insertLe le x ys

/-- Stable insertion sort; models Python `sorted` / the stable descending
`DataFrame.sort_values` (see `extract_and_process_ranking`). -/
def sortLe {α : Type} (le : α → α → Bool) : List α → List α
  | [] => []
  | x :: xs => insertLe le x (sortLe le xs)

/-- The fixed division code `028` (from `TARGET_DIVISION_NAME.split()[0]`). -/
def DIVISION_CODE : PyStr := ['0', '2', '8']

/-- Python `code.replace('028', '')`: remove every non-overlapping occurrence
of `028`, scanning left to right (source lines 207 and 295). -/
def remove028 : PyStr → PyStr
  | [] => []
  | [c] => [c]
  | [c, d] => [c, d]
  | c :: d :: e :: rest =>
    if c = '0' ∧ d = '2' ∧ e = '8' then remove028 rest
    else c :: remove028 (d :: e :: rest)

/-- Team-id derivation used identically in `extract_individual_stats` (line
207) and `extract_team_roster` (line 295):
`team_code.replace('028','').lstrip('0') or team_code[-2:]`.
Python `code[-2:]` is the last two characters (the whole string when shorter). -/
def deriveTeamIdL (code : PyStr) : PyStr :=
  let r := (remove028 code).dropWhile (· == '0')
  if r.isEmpty then code.drop (code.length - 2) else r

/-- String wrapper of `deriveTeamIdL`. -/
def deriveTeamId (code : String) : String := (deriveTeamIdL code.toList).asString

/-- Modelled from the spec (claim C4 wording): the code with the fixed
division-code PREFIX stripped (once) and leading zeros removed, falling back
to the last two characters of the code when that yields the empty string. -/
def specDeriveIdL (code : PyStr) : PyStr :=
  let t := if DIVISION_CODE.isPrefixOf code then code.drop 3 else code
  let r := t.dropWhile (· == '0')
  if r.isEmpty then code.drop (code.length - 2) else r

/-- String wrapper of `specDeriveIdL`. -/
def specDeriveId (code : String) : String := (specDeriveIdL code.toList).asString

/-- The token lists (`valid_team_nums`, `points`) that one standings page
text yields (source lines 144-164).  Pages without the `Total:` marker, or
where neither `Team #:` nor `Team #` occurs, yield no tokens.  The
team-number line is the slice from the `Team #` label to the `Total:` label
cut at its first newline; the points line is the slice from `Total:` cut at
its first newline. -/
def teamPointTokens (t : PyStr) : List PyStr × List PyStr :=
  if hasSub ("Total:".toList) t then
    match (subFind ("Team #:".toList) t).orElse (fun _ => subFind ("Team #".toList) t),
          subFind ("Total:".toList) t with
    | some a, some b =>
      let totalLine := pyStrip (((t.drop b).splitOn '\n').headD [])
      let teamLine := pyStrip ((((t.drop a).take (b - a)).splitOn '\n').headD [])
      let nums :=
        if hasSub ("Team #".toList) teamLine then
          (pySplitWs (pyStrip (((pySplit ("Team #".toList) teamLine).getLastD []).filter (· ≠ ':')))).filter isDigitStr
        else (pySplitWs teamLine).filter isDigitStr
      let pts := pySplitWs (pyStrip ((pySplit ("Total:".toList) totalLine).getLastD []))
      (nums, pts)
    | _, _ => ([], [])
  else ([], [])

/-- Guard of the zip loop (source line 166): equal token counts, non-empty. -/
def goodPage (t : PyStr) : Bool :=
  let np := teamPointTokens t
  np.1.length == np.2.length && !np.1.isEmpty

/-- The zipped (team-number, point-token) pairs of a page, team numbers as strings. -/
def pagePairs (t : PyStr) : List (String × PyStr) :=
  (((teamPointTokens t).1).zip ((teamPointTokens t).2)).map (fun q => (q.1.asString, q.2))

/-- Processing of one zipped pair against the accumulated mapping (source
lines 167-173): first-seen keys win, point tokens that do not parse as
integers are skipped without affecting the other pairs. -/
def stepTeam (d : List (String × Int)) (kp : String × PyStr) : List (String × Int) :=
  if (d.lookup kp.1).isSome then d
  else
    match pyInt? kp.2 with
    | some v => d ++ [(kp.1, v)]
    | none => d

/-- Processing of one standings page against the accumulated mapping. -/
def processPage (d : List (String × Int)) (t : PyStr) : List (String × Int) :=
  if goodPage t then (pagePairs t).foldl stepTeam d else d

/-- The insertion-ordered team-number → points mapping accumulated over all pages. -/
def rankingDict (pages : List String) : List (String × Int) :=
  pages.foldl (fun d pg => processPage d pg.toList) []

/-- Descending-points comparison used for the final sort. -/
def pointsDescLe (a b : String × Int) : Bool := b.2 ≤ a.2

/-- Embedding of `extract_and_process_ranking` (source lines 133-184) on the page texts of
a downloaded standings PDF: the first-seen mapping, materialised as rows
sorted by points descending.  `DataFrame.sort_values(by='points',
ascending=False)` is modelled as a stable descending sort: pandas reverses
the column, applies an ascending argsort, and reverses the indexer again,
which preserves first-seen order on ties for the stable small-array sorts
involved. -/
def extract_and_process_ranking (pages : List String) : List (String × Int) :=
  sortLe pointsDescLe (rankingDict pages)

/-- The static team-name table `TEAM_NAME_MAP` (source lines 19-23). -/
def TEAM_NAME_MAP : List (String × String) :=
  [("1", "Kangaroo Kick"), ("2", "Oku niki"), ("3", "Wagamama foundry"),
   ("4", "Hinerisugita!"), ("5", "Tokyo Bayashis"), ("6", "Lucky Flockers"),
   ("7", "Taigaku Straight Flush"), ("8", "Happy Lucky Ricky"),
   ("9", "Rui X sei"), ("10", "yattenna"), ("11", "Tamanchu")]

/-- Canonical exact value of Python `float()` on the nonnegative decimal
tokens produced by the `[0-9.]+` groups: a mantissa over `10 ^ tenExp` with
the common factors of ten cancelled, so that two tokens denote the same
float value exactly when their canonical forms coincide (the tokens here are
short enough that distinct decimal values stay distinct as floats). -/
structure PyFloatVal where
  mantissa : Nat
  tenExp : Nat
deriving DecidableEq, Repr

/-- Cancel common factors of ten from a scaled decimal. -/
def stripTens : Nat → Nat → Nat × Nat
  | m, 0 => (m, 0)
  | m, e + 1 => if m % 10 = 0 then stripTens (m / 10) e else (m, e + 1)

/-- A parsed individual-stats record (source lines 219-228). -/
structure PlayerRecord where
  team_name : String
  player_name : String
  player_number : String
  gender : String
  sl : Nat
  wins : String
  avg_points : PyFloatVal
  points_rate : String
deriving DecidableEq, Repr

/-- The register of regex groups of the individual-stats line pattern. -/
structure IndivFields where
  member : PyStr
  sl : PyStr
  gender : PyStr
  team : PyStr
  tmp : PyStr
  tmore : PyStr
  points : PyStr
  avg : PyStr
  rate : PyStr
deriving DecidableEq

/-- The `\w` word-character class (ASCII approximation; all inputs are ASCII). -/
def isWordChar (c : Char) : Bool := c.isAlphanum || c == '_'

/-- The `[0-9.]` character class. -/
def isDecChar (c : Char) : Bool := c.isDigit || c == '.'

/-- Consume the regex token `\s+` (at least one whitespace character; the run
is maximal, which the concrete patterns force because every follower class is
whitespace-free). -/
def eatWs1 : PyStr → Option PyStr
  | c :: rest => if isWs c then some (rest.dropWhile isWs) else none
  | [] => none

/-- Consume a maximal nonempty run of class `p` (a greedy `X+` whose follower
in the pattern lies outside the class, so the maximal run is forced). -/
def eatRun1 (p : Char → Bool) : PyStr → Option (PyStr × PyStr)
  | c :: rest => if p c then some (c :: rest.takeWhile p, rest.dropWhile p) else none
  | [] => none

/-- The anchored tail of the individual-stats line regex after the lazy name
group (source line 203):
`\s+(\d+)\s+(\d+)\s+(\w+)\s+(028\d+)\s+(\d+)\s+(\d+)\s+(\d+)\s+([0-9.]+)\s+([0-9.]+)\s*%?`.
`re.match` leaves any trailing text unconsumed, so nothing after the rate
group (and its optional `%`) is inspected. -/
def indivAfterName (l : PyStr) : Option IndivFields :=
  match eatWs1 l with
  | none => none
  | some l1 =>
  match eatRun1 Char.isDigit l1 with
  | none => none
  | some (member, l2) =>
  match eatWs1 l2 with
  | none => none
  | some l3 =>
  match eatRun1 Char.isDigit l3 with
  | none => none
  | some (slv, l4) =>
  match eatWs1 l4 with
  | none => none
  | some l5 =>
  match eatRun1 isWordChar l5 with
  | none => none
  | some (gender, l6) =>
  match eatWs1 l6 with
  | none => none
  | some l7 =>
  if DIVISION_CODE.isPrefixOf l7 then
  match eatRun1 Char.isDigit (l7.drop 3) with
  | none => none
  | some (tdig, l8) =>
  match eatWs1 l8 with
  | none => none
  | some l9 =>
  match eatRun1 Char.isDigit l9 with
  | none => none
  | some (tmp, l10) =>
  match eatWs1 l10 with
  | none => none
  | some l11 =>
  match eatRun1 Char.isDigit l11 with
  | none => none
  | some (tmore, l12) =>
  match eatWs1 l12 with
  | none => none
  | some l13 =>
  match eatRun1 Char.isDigit l13 with
  | none => none
  | some (pts, l14) =>
  match eatWs1 l14 with
  | none => none
  | some l15 =>
  match eatRun1 isDecChar l15 with
  | none => none
  | some (avg, l16) =>
  match eatWs1 l16 with
  | none => none
  | some l17 =>
  match eatRun1 isDecChar l17 with
  | none => none
  | some (rate, _) =>
    some { member := member, sl := slv, gender := gender,
           team := DIVISION_CODE ++ tdig, tmp := tmp, tmore := tmore,
           points := pts, avg := avg, rate := rate }
  else none

/-- The lazy name group `^(.+?)` of the individual-stats line regex: extend
the name one character at a time (never across a newline) until the anchored
tail matches; the minimal extension wins. -/
def indivNameLoop : PyStr → PyStr → Option (PyStr × IndivFields)
  | acc, c :: rest =>
    if c == '\n' then none
    else
      match indivAfterName rest with
      | some f => some ((c :: acc).reverse, f)
      | none => indivNameLoop (c :: acc) rest
  | _, [] => none

/-- Embedding of `re.match` of the full individual-stats line pattern: name group plus tail. -/
def matchIndivLine (l : PyStr) : Option (PyStr × IndivFields) := indivNameLoop [] l

/-- Python `float(s)` on the decimal tokens produced by the `[0-9.]+`
groups, as a canonical exact decimal.  (Python raises `ValueError` on
tokens with more than one dot, which no claim exercises; the model returns
zero there.) -/
def pyFloat (l : PyStr) : PyFloatVal :=
  match l.splitOn '.' with
  | [a] => ⟨digitsToNat a, 0⟩
  | [a, b] =>
    let p := stripTens (digitsToNat a * 10 ^ b.length + digitsToNat b) b.length
    ⟨p.1, p.2⟩
  | _ => ⟨0, 0⟩

/-- Gender normalisation (source line 212): upper-cased `M` / `F` map to the
Japanese markers, anything else is passed through verbatim. -/
def genderJp (g : PyStr) : String :=
  if g.map Char.toUpper = ['M'] then "男"
  else if g.map Char.toUpper = ['F'] then "女"
  else g.asString

/-- Record construction for one matched individual-stats line (source lines
204-228). -/
def mkPlayerRecord (name : PyStr) (f : IndivFields) : PlayerRecord :=
  let team_id := (deriveTeamIdL f.team).asString
  { team_name := (TEAM_NAME_MAP.lookup team_id).getD ("チームNo." ++ team_id)
  , player_name := name.asString
  , player_number := f.member.asString
  , gender := genderJp f.gender
  , sl := digitsToNat f.sl
  , wins := f.tmore.asString ++ "/" ++ f.tmp.asString
  , avg_points := pyFloat f.avg
  , points_rate := f.rate.asString ++ "%" }

/-- The records contributed by one individual-stats page text: every
non-empty trimmed line is matched, matching lines contribute exactly one
record in document order, others contribute nothing (source lines 197-228). -/
def indivLineRecords (t : PyStr) : List PlayerRecord :=
  (((t.splitOn '\n').map pyStrip).filter (· ≠ [])).filterMap
    (fun ln => (matchIndivLine ln).map (fun q => mkPlayerRecord q.1 q.2))

/-- Embedding of `extract_individual_stats` (source lines 187-230) on the page texts of a
downloaded individual-stats PDF.  Duplicate member numbers are kept. -/
def extract_individual_stats (pages : List String) : List PlayerRecord :=
  pages.flatMap (fun pg => indivLineRecords pg.toList)

/-- Modelled from the spec (claim C8 wording): a full-line match of the
10-field schema — free-text name, digit member number, digit skill level,
letter-only gender, team code of the division code plus exactly two digits,
three digit count fields, two decimal fields with an optional trailing `%`,
and nothing after them on the line. -/
def specFullSchemaTail (l : PyStr) : Bool :=
  match eatWs1 l with
  | none => false
  | some l1 =>
  match eatRun1 Char.isDigit l1 with
  | none => false
  | some (_, l2) =>
  match eatWs1 l2 with
  | none => false
  | some l3 =>
  match eatRun1 Char.isDigit l3 with
  | none => false
  | some (_, l4) =>
  match eatWs1 l4 with
  | none => false
  | some l5 =>
  match eatRun1 Char.isAlpha l5 with
  | none => false
  | some (_, l6) =>
  match eatWs1 l6 with
  | none => false
  | some l7 =>
  if DIVISION_CODE.isPrefixOf l7 then
  match l7.drop 3 with
  | a :: b :: rest8 =>
    if a.isDigit && b.isDigit && !(match rest8 with
        | c :: _ => c.isDigit
        | [] => false) then
  match eatWs1 rest8 with
  | none => false
  | some l9 =>
  match eatRun1 Char.isDigit l9 with
  | none => false
  | some (_, l10) =>
  match eatWs1 l10 with
  | none => false
  | some l11 =>
  match eatRun1 Char.isDigit l11 with
  | none => false
  | some (_, l12) =>
  match eatWs1 l12 with
  | none => false
  | some l13 =>
  match eatRun1 Char.isDigit l13 with
  | none => false
  | some (_, l14) =>
  match eatWs1 l14 with
  | none => false
  | some l15 =>
  match eatRun1 isDecChar l15 with
  | none => false
  | some (_, l16) =>
  match eatWs1 l16 with
  | none => false
  | some l17 =>
  match eatRun1 isDecChar l17 with
  | none => false
  | some (_, l18) =>
    (match l18.dropWhile isWs with
     | '%' :: rest19 => rest19.isEmpty
     | l19 => l19.isEmpty)
    else false
  | _ => false
  else false

/-- Modelled from the spec (claim C8 wording): the whole-line schema matcher;
the lazy name group followed by the full-match tail. -/
def specMatchesFullSchema : PyStr → PyStr → Bool
  | acc, c :: rest =>
    if c == '\n' then false
    else if specFullSchemaTail rest then true
    else specMatchesFullSchema (c :: acc) rest
  | _, [] => false

/-- Whole-line schema matcher entry point (spec-modelled, for claim C8). -/
def matchesFullSchema (l : PyStr) : Bool := specMatchesFullSchema [] l

/-- A parsed roster row (source lines 297-305). -/
structure RosterEntry where
  team_id : String
  team_code : String
  team_name : String
  player_name : String
  player_number : String
  gender : String
  sl : Nat
deriving DecidableEq, Repr

/-- Lookahead `(?=\s*028\d{2}|$)` of the multi-column team-header pattern:
either the end of the line, or optional whitespace followed by the division
code and two digits. -/
def thLook (s : PyStr) : Bool :=
  s.isEmpty ||
    (let r := s.dropWhile isWs
     DIVISION_CODE.isPrefixOf r &&
       (match r.drop 3 with
        | a :: b :: _ => a.isDigit && b.isDigit
        | _ => false))

/-- The lazy `[^0-9]+?` tail of the team-name group: extend one non-digit
character at a time until the lookahead holds; the minimal extension wins. -/
def thNameTail : PyStr → Option (PyStr × PyStr)
  | [] => none
  | c :: rest =>
    if c.isDigit then none
    else if thLook rest then some ([c], rest)
    else
      match thNameTail rest with
      | some (tl, rr) => some (c :: tl, rr)
      | none => none

/-- Try the multi-column team-header regex
`(028\d{2})\s+([A-Za-z][^0-9]+?)(?=\s*028\d{2}|$)` (source line 256) at the
head of `l`; returns (team code, raw name group, consumed length). -/
def matchTHAt (l : PyStr) : Option (PyStr × PyStr × Nat) :=
  if DIVISION_CODE.isPrefixOf l then
    match l.drop 3 with
    | a :: b :: l1 =>
      if a.isDigit && b.isDigit then
        match eatWs1 l1 with
        | none => none
        | some l2 =>
          match l2 with
          | c0 :: l3 =>
            if c0.isAlpha then
              match thNameTail l3 with
              | some (tl, l4) =>
                some (['0', '2', '8', a, b], c0 :: tl, l.length - l4.length)
              | none => none
            else none
          | [] => none
      else none
    | _ => none
  else none

/-- The `re.finditer` scan for the team-header pattern (fuelled by the input
length; a match consumes its nonempty extent, otherwise the scan advances
one character). -/
def finditerTHFuel : Nat → PyStr → List (PyStr × PyStr)
  | 0, _ => []
  | _, [] => []
  | fuel + 1, c :: rest =>
    match matchTHAt (c :: rest) with
    | some (code, name, len) =>
      (code, name) :: finditerTHFuel fuel ((c :: rest).drop (max len 1))
    | none => finditerTHFuel fuel rest

/-- All multi-column team headers of a line, in scan order. -/
def multiTeamHeaders (l : PyStr) : List (PyStr × PyStr) := finditerTHFuel (l.length + 1) l

/-- Embedding of `re.match` of the single team-header pattern `^(028\d{2})\s+(.+?)$`
(source line 266).  The greedy `\s+` takes the maximal whitespace run unless
the line would end there, in which case it gives one character back to the
mandatory lazy name group (so a line of code plus two or more trailing
whitespace characters still matches, with a whitespace name group). -/
def singleTeamHeader (l : PyStr) : Option (PyStr × PyStr) :=
  if DIVISION_CODE.isPrefixOf l then
    match l.drop 3 with
    | a :: b :: l1 =>
      if a.isDigit && b.isDigit then
        let ws := l1.takeWhile isWs
        let r := l1.dropWhile isWs
        if r.isEmpty then
          if ws.length ≥ 2 then some (['0', '2', '8', a, b], [ws.getLastD ' ']) else none
        else
          if ws.isEmpty then none
          else some (['0', '2', '8', a, b], r)
      else none
    | _ => none
  else none

/-- The skip patterns `^Host:|^SL\s+Number|^Page \d+|^N\s+SL\s+Number`
(source line 274), via `re.match`. -/
def isSkipHeader (l : PyStr) : Bool :=
  ("Host:".toList).isPrefixOf l ||
  (match l with
   | 'S' :: 'L' :: r =>
     (match eatWs1 r with
      | some r2 => ("Number".toList).isPrefixOf r2
      | none => false)
   | _ => false) ||
  (("Page ".toList).isPrefixOf l &&
    (match l.drop 5 with
     | c :: _ => c.isDigit
     | [] => false)) ||
  (match l with
   | 'N' :: r =>
     (match eatWs1 r with
      | some ('S' :: 'L' :: r2) =>
        (match eatWs1 r2 with
         | some r3 => ("Number".toList).isPrefixOf r3
         | none => false)
      | _ => false)
   | _ => false)

/-- Lookahead `(?=\s+N\s+\d+\s+\*|$)` of the player-block pattern. -/
def pbLook (s : PyStr) : Bool :=
  s.isEmpty ||
    (match eatWs1 s with
     | some ('N' :: r2) =>
       (match eatWs1 r2 with
        | some r3 =>
          (match eatRun1 Char.isDigit r3 with
           | some (_, r4) =>
             (match eatWs1 r4 with
              | some ('*' :: _) => true
              | _ => false)
           | none => false)
        | none => false)
     | _ => false)

/-- The lazy name group `(.+?)` of the player-block pattern: extend one
character at a time (never across a newline) until the lookahead holds. -/
def pbNameTail : PyStr → Option (PyStr × PyStr)
  | [] => none
  | c :: rest =>
    if c == '\n' then none
    else if pbLook rest then some ([c], rest)
    else
      match pbNameTail rest with
      | some (tl, rr) => some (c :: tl, rr)
      | none => none

/-- Try the player-block regex
`N\s+(\d+)\s+\*\s*(\d+)\s+(.+?)(?=\s+N\s+\d+\s+\*|$)` (source line 284) at
the head of `l`; returns (skill-level digits, member digits, raw name group,
consumed length).  When the line ends right after the member number and its
trailing whitespace, the greedy `\s+` gives one character back to the
mandatory lazy name group. -/
def matchPBAt (l : PyStr) : Option (PyStr × PyStr × PyStr × Nat) :=
  match l with
  | 'N' :: l1 =>
    (match eatWs1 l1 with
     | none => none
     | some l2 =>
       match eatRun1 Char.isDigit l2 with
       | none => none
       | some (slv, l3) =>
         match eatWs1 l3 with
         | some ('*' :: l5) =>
           let l6 := l5.dropWhile isWs
           (match eatRun1 Char.isDigit l6 with
            | none => none
            | some (member, l7) =>
              let ws := l7.takeWhile isWs
              let r := l7.dropWhile isWs
              if r.isEmpty then
                if ws.length ≥ 2 then some (slv, member, [ws.getLastD ' '], l.length)
                else none
              else if ws.isEmpty then none
              else
                match pbNameTail r with
                | some (nm, l9) => some (slv, member, nm, l.length - l9.length)
                | none => none)
         | _ => none)
  | _ => none

/-- The `re.finditer` scan for the player-block pattern. -/
def finditerPBFuel : Nat → PyStr → List (PyStr × PyStr × PyStr)
  | 0, _ => []
  | _, [] => []
  | fuel + 1, c :: rest =>
    match matchPBAt (c :: rest) with
    | some (a, b, nm, len) =>
      (a, b, nm) :: finditerPBFuel fuel ((c :: rest).drop (max len 1))
    | none => finditerPBFuel fuel rest

/-- All player blocks of a line, in scan order. -/
def playerBlocks (l : PyStr) : List (PyStr × PyStr × PyStr) := finditerPBFuel (l.length + 1) l

/-- Roster page line processing (source lines 249-305): the state is the
current column-index → (team code, team name) association (a list indexed by
position) plus the accumulated entries.  Branch order follows the source:
blank line, multi-column header, single header without `Host`, skip header,
empty state, player blocks (the i-th block joins the i-th column team;
blocks beyond the column count are dropped by the zip). -/
def rosterLineStep (st : List (PyStr × PyStr) × List RosterEntry) (ln0 : PyStr) :
    List (PyStr × PyStr) × List RosterEntry :=
  let ln := pyRstrip ln0
  if (pyStrip ln).isEmpty then st
  else
    let ths := multiTeamHeaders ln
    if ths.length ≥ 2 then (ths.map (fun q => (q.1, pyStrip q.2)), st.2)
    else if (singleTeamHeader ln).isSome && !hasSub ("Host".toList) ln then
      (match singleTeamHeader ln with
       | some (code, name) => ([(code, pyStrip name)], st.2)
       | none => st)
    else if isSkipHeader ln then st
    else if st.1.isEmpty then st
    else
      let entries : List RosterEntry := (st.1.zip (playerBlocks ln)).map (fun q =>
        { team_id := (deriveTeamIdL q.1.1).asString
        , team_code := q.1.1.asString
        , team_name := q.1.2.asString
        , player_name := (pyStrip q.2.2.2).asString
        , player_number := q.2.2.1.asString
        , gender := "-"
        , sl := digitsToNat q.2.1 })
      (st.1, st.2 ++ entries)

/-- The entries contributed by one roster page; the column-to-team state
starts empty on every page (source line 247). -/
def rosterPageEntries (lines : List PyStr) : List RosterEntry :=
  (lines.foldl rosterLineStep ([], [])).2

/-- Embedding of `extract_team_roster` (source lines 233-307) on the page texts of a
downloaded roster PDF. -/
def extract_team_roster (pages : List String) : List RosterEntry :=
  pages.flatMap (fun pg => rosterPageEntries (pg.toList.splitOn '\n'))

/-- A grouped roster player summary (source lines 321-326). -/
structure RosterPlayer where
  player_name : String
  player_number : String
  gender : String
  sl : Nat
deriving DecidableEq, Repr

/-- A grouped roster team (source lines 316-320). -/
structure RosterTeam where
  team_id : String
  team_name : String
  players : List RosterPlayer
deriving DecidableEq, Repr

/-- One step of `group_roster_by_team` (source lines 312-326): groups keyed
by team id in first-seen order, team name from the first entry of the group,
players appended in entry order.  (In Python the key is
`str(entry.get('team_id') or '')`, which on the string ids produced here is
the id itself.) -/
def groupStep (g : List (String × RosterTeam)) (e : RosterEntry) : List (String × RosterTeam) :=
  let pl : RosterPlayer :=
    { player_name := e.player_name, player_number := e.player_number
    , gender := e.gender, sl := e.sl }
  if (g.lookup e.team_id).isSome then
    g.map (fun q =>
      if q.1 == e.team_id then (q.1, { q.2 with players := q.2.players ++ [pl] }) else q)
  else
    g ++ [(e.team_id, { team_id := e.team_id, team_name := e.team_name, players := [pl] })]

/-- Embedding of `group_roster_by_team` (source lines 310-328): fold into keyed groups,
then Python `sorted(..., key=team_name)`, a stable ascending sort. -/
def group_roster_by_team (es : List RosterEntry) : List RosterTeam :=
  sortLe (fun a b => lexLe a.team_name.toList b.team_name.toList)
    ((es.foldl groupStep []).map Prod.snd)

/-- The site base URL (source line 13). -/
def BASE_URL : String := "http://www.poolplayers.jp"

/-- URL absolutisation (source lines 58, 72, 110): prefix the base URL unless
the href already starts with `http`. -/
def absolutize (href : String) : String :=
  if ("http".toList).isPrefixOf href.toList then href else BASE_URL ++ href

/-- Try the standings-candidate regex `S028(\d+)\.pdf` (source line 55) at
the head of `l`: the greedy digit run is forced maximal because `.pdf`
starts with a non-digit; returns the integer value of the digit group.  The
pattern is case-sensitive (no `re.IGNORECASE`). -/
def matchSAt (l : PyStr) : Option Nat :=
  if ('S' :: DIVISION_CODE).isPrefixOf l then
    let r := l.drop 4
    let ds := r.takeWhile Char.isDigit
    if ds.isEmpty then none
    else if (".pdf".toList).isPrefixOf (r.drop ds.length) then some (digitsToNat ds)
    else none
  else none

/-- The `re.search` of the standings-candidate regex: leftmost match. -/
def searchS : PyStr → Option Nat
  | [] => none
  | c :: rest =>
    match matchSAt (c :: rest) with
    | some n => some n
    | none => searchS rest

/-- Descending comparison of Python `(int, str)` tuples, as used by
`candidates.sort(reverse=True)` followed by `candidates[0]`. -/
def candGt (a b : Nat × String) : Bool :=
  b.1 < a.1 || (a.1 == b.1 && lexLt b.2.toList a.2.toList)

/-- One step of the maximum-candidate fold. -/
def maxStep (acc : Option (Nat × String)) (c : Nat × String) : Option (Nat × String) :=
  match acc with
  | none => some c
  | some b => if candGt c b then some c else some b

/-- The maximal candidate: the stable reversed sort followed by `[0]` keeps
the first occurrence of the maximum, which this left fold reproduces. -/
def maxCand (l : List (Nat × String)) : Option (Nat × String) := l.foldl maxStep none

/-- The `(suffix, url)` candidates of the standings (`S`) pattern among the
row hrefs (source lines 50-59); a missing href (modelled as the empty
string, which is also falsy in Python) is skipped. -/
def sCandidates (links : List String) : List (Nat × String) :=
  links.filterMap (fun h =>
    if h = "" then none
    else (searchS h.toList).map (fun n => (n, absolutize h)))

/-- Python `full_url.lower().endswith('.pdf')` (source line 73). -/
def lowerEndsPdf (s : String) : Bool :=
  (".pdf".toList).isSuffixOf (s.toList.map Char.toLower)

/-- Embedding of `find_latest_pdf_url` (source lines 26-81) on the row of hrefs of the
target division (locating the row in the fetched page is the out-of-scope
DOM collaborator; a failed fetch or an absent division row returns `none`
one level up).  Primary: the maximal `S028<digits>.pdf` candidate; fallback:
the first href in the row whose absolutised URL ends in `.pdf`
case-insensitively. -/
def find_latest_pdf_url (links : List String) : Option String :=
  match maxCand (sCandidates links) with
  | some c => some c.2
  | none =>
    (links.find? (fun h => if h = "" then false else lowerEndsPdf (absolutize h))).map absolutize

/-- Backtracking tail of the `{type}028(\d+).pdf` pattern of
`find_pdf_url_by_type` (source line 107): the dot before `pdf` is an
unescaped regex `.` (any character but newline), so the greedy digit group
is tried longest first and may give one digit back to the dot. -/
def tryDotPdf (ds rest0 : PyStr) : Nat → Option Nat
  | 0 => none
  | j + 1 =>
    match ds.drop (j + 1) ++ rest0 with
    | c :: more =>
      if c ≠ '\n' && ("pdf".toList).isPrefixOf more then some (digitsToNat (ds.take (j + 1)))
      else tryDotPdf ds rest0 j
    | [] => tryDotPdf ds rest0 j

/-- Try the `{type}028(\d+).pdf` pattern at the head of `l`. -/
def matchTypeAt (tc : Char) (l : PyStr) : Option Nat :=
  if (tc :: DIVISION_CODE).isPrefixOf l then
    let r := l.drop 4
    let ds := r.takeWhile Char.isDigit
    if ds.isEmpty then none else tryDotPdf ds (r.drop ds.length) ds.length
  else none

/-- The `re.search` of the typed pattern: leftmost match. -/
def searchType (tc : Char) : PyStr → Option Nat
  | [] => none
  | c :: rest =>
    match matchTypeAt tc (c :: rest) with
    | some n => some n
    | none => searchType tc rest

/-- The `(suffix, url)` candidates of the typed pattern among the row hrefs. -/
def typeCandidates (tc : Char) (links : List String) : List (Nat × String) :=
  links.filterMap (fun h =>
    if h = "" then none
    else (searchType tc h.toList).map (fun n => (n, absolutize h)))

/-- Embedding of `find_pdf_url_by_type` (source lines 84-118): the maximal candidate of
the typed pattern; no fallback of any kind. -/
def find_pdf_url_by_type (tc : Char) (links : List String) : Option String :=
  (maxCand (typeCandidates tc links)).map (fun c => c.2)

/-- Modelled from the spec (claim C7 wording), case-insensitive candidate
matcher: `S` + division code + digits + `.pdf`, all compared after
lower-casing. -/
def specMatchSAtCI (l : PyStr) : Option Nat :=
  if (['s', '0', '2', '8']).isPrefixOf (l.map Char.toLower) then
    let r := l.drop 4
    let ds := r.takeWhile Char.isDigit
    if ds.isEmpty then none
    else if (".pdf".toList).isPrefixOf ((r.drop ds.length).map Char.toLower) then
      some (digitsToNat ds)
    else none
  else none

/-- Modelled from the spec: leftmost case-insensitive candidate match. -/
def specSearchSCI : PyStr → Option Nat
  | [] => none
  | c :: rest =>
    match specMatchSAtCI (c :: rest) with
    | some n => some n
    | none => specSearchSCI rest

/-- Modelled from the spec (claim C7 wording): return the candidate with the
maximal integer suffix among case-insensitive `S028<digits>.pdf` matches;
with zero matches fall back first to any href containing the `S028`
substring, then to the second anchor of the row if it ends in `.pdf`. -/
def specLocate (links : List String) : Option String :=
  match maxCand (links.filterMap (fun h =>
      if h = "" then none
      else (specSearchSCI h.toList).map (fun n => (n, absolutize h)))) with
  | some c => some c.2
  | none =>
    match links.find? (fun h => hasSub ("S028".toList) h.toList) with
    | some h => some (absolutize h)
    | none =>
      match links.drop 1 with
      | h :: _ => if (".pdf".toList).isSuffixOf h.toList then some (absolutize h) else none
      | [] => none

/-- A rating-change row (source lines 369-376). -/
structure SlChange where
  player_name : String
  member_number : String
  old_sl : String
  old_date : String
  new_sl : String
  new_date : String
deriving DecidableEq, Repr

/-- A final ranking row (source lines 482-486 and 494-497). -/
structure TeamRecord where
  team_name : String
  team_id : String
  points : Int
deriving DecidableEq, Repr

/-- The persisted snapshot (the JSON document); absent keys read back as
`None`/`[]` through `dict.get`, modelled as `none`/`[]` fields. -/
structure Snapshot where
  last_checked : Option String
  last_checked_source : Option String
  last_updated : Option String
  source_pdf : Option String
  individuals : List PlayerRecord
  individuals_pdf : Option String
  sl_changes : List SlChange
  ranking : List TeamRecord
  roster : List RosterTeam
  roster_pdf : Option String
deriving DecidableEq, Repr

/-- The snapshot seen when no file exists on disk or it fails to parse. -/
def emptySnapshot : Snapshot :=
  { last_checked := none, last_checked_source := none, last_updated := none
  , source_pdf := none, individuals := [], individuals_pdf := none
  , sl_changes := [], ranking := [], roster := [], roster_pdf := none }

/-- The member numbers of the individuals list of the snapshot on disk
(source lines 382-390); a missing or unreadable file yields the empty set. -/
def memberSetOf : Option Snapshot → List String
  | none => []
  | some s => s.individuals.map (fun p => p.player_number)

/-- Embedding of `extract_sl_changes` (source lines 331-401).  The league-wide change
list parsed from the report page arrives as input (`none` when the fetch or
the table parse raised, which the enclosing handler turns into `[]`; the
HTML table traversal itself is the out-of-scope DOM collaborator); the
result is filtered to member numbers present in the previously persisted
snapshot read back from disk. -/
def extract_sl_changes (fetched : Option (List SlChange)) (onDisk : Option Snapshot) :
    List SlChange :=
  match fetched with
  | none => []
  | some cs => cs.filter (fun c => (memberSetOf onDisk).contains c.member_number)

/-- The external-world inputs of one `main` run (source lines 404-533):
the prior snapshot on disk, the two locator results obtained before the
branch and the `P` locator result obtained inside it, the download results
(page texts) of the three PDFs, the fetched rating-change list, and the
current timestamp string. -/
structure Inputs where
  prior : Option Snapshot
  latestUrl : Option String
  rosterUrl : Option String
  pUrl : Option String
  standingsPages : Option (List String)
  pPages : Option (List String)
  rosterPages : Option (List String)
  slFetch : Option (List SlChange)
  now : String

/-- The prior snapshot as loaded at the start of `main` (lines 405-412). -/
def existingOf (i : Inputs) : Snapshot := i.prior.getD emptySnapshot

/-- The value `roster_entries` (lines 435-436): download only when the roster URL is
truthy, parse only when the download succeeded. -/
def rosterEntriesOf (i : Inputs) : List RosterEntry :=
  match (if pyTruthyO i.rosterUrl then i.rosterPages else none) with
  | some ps => extract_team_roster ps
  | none => []

/-- The value `roster_grouped` (line 437). -/
def rosterGroupedOf (i : Inputs) : List RosterTeam :=
  if rosterEntriesOf i ≠ [] then group_roster_by_team (rosterEntriesOf i) else []

/-- The value `roster_name_map` (line 438); group keys are unique, so first-wins
lookup models the Python dict comprehension. -/
def rosterNameMapOf (i : Inputs) : List (String × String) :=
  (rosterGroupedOf i).map (fun t => (t.team_id, t.team_name))

/-- The individuals parsed from the individual-stats PDF (lines 449-452). -/
def pIndividualsOf (i : Inputs) : List PlayerRecord :=
  match (if pyTruthyO i.pUrl then i.pPages else none) with
  | some ps => extract_individual_stats ps
  | none => []

/-- The zero-filled records synthesised from the roster entries (lines
455-465 and 516-525; both sites build the same dictionaries). -/
def synthIndividuals (es : List RosterEntry) : List PlayerRecord :=
  es.map (fun e =>
    { team_name := e.team_name, player_name := e.player_name
    , player_number := e.player_number, gender := e.gender, sl := e.sl
    , wins := "0/0", avg_points := { mantissa := 0, tenExp := 0 }, points_rate := "0%" })

/-- The flag `individuals_from_roster` (lines 451-466). -/
def individualsFromRosterOf (i : Inputs) : Bool :=
  (pIndividualsOf i).isEmpty && !(rosterEntriesOf i).isEmpty

/-- The individuals list assigned in the standings branch (line 468). -/
def individualsOf (i : Inputs) : List PlayerRecord :=
  if individualsFromRosterOf i then synthIndividuals (rosterEntriesOf i)
  else pIndividualsOf i

/-- The value `ranking_df` (lines 445-446): `none` models the `None` frame returned
when the standings download failed. -/
def rankingDfOf (i : Inputs) : Option (List (String × Int)) :=
  match i.standingsPages with
  | some ps => some (extract_and_process_ranking ps)
  | none => none

/-- Name resolution of line 480: roster-derived name, else the static table,
else the placeholder (Python `or`, so empty-string names fall through). -/
def resolveTeamName (i : Inputs) (tid : String) : String :=
  pyOrS ((rosterNameMapOf i).lookup tid)
    (pyOrS (TEAM_NAME_MAP.lookup tid) ("チームNo." ++ tid))

/-- The `final_ranking` rows (lines 479-486), in frame order. -/
def finalRankingOf (i : Inputs) (df : List (String × Int)) : List TeamRecord :=
  df.map (fun q => { team_name := resolveTeamName i q.1, team_id := q.1, points := q.2 })

/-- The roster-based zero-point ranking (lines 494-497 and 512-515);
`str(team['team_id'] or '')` is the identity on the string ids built here. -/
def zeroRanking (ts : List RosterTeam) : List TeamRecord :=
  ts.map (fun t => { team_name := t.team_name, team_id := t.team_id, points := (0 : Int) })

/-- Condition of state 1 (line 477): a standings frame exists, is non-empty,
and the individuals were not synthesised from the roster. -/
def state1Of (i : Inputs) : Bool :=
  match rankingDfOf i with
  | some df => !df.isEmpty && !individualsFromRosterOf i
  | none => false

/-- Embedding of `main` (source lines 404-533): from the loaded prior snapshot and the
collaborator results to the snapshot persisted at the end of the run. -/
def runMain (i : Inputs) : Snapshot :=
  let existing := existingOf i
  let base : Snapshot :=
    { last_checked := some i.now
    , last_checked_source := pyOrO i.latestUrl existing.source_pdf
    , last_updated := existing.last_updated
    , source_pdf := existing.source_pdf
    , individuals := existing.individuals
    , individuals_pdf := existing.individuals_pdf
    , sl_changes := existing.sl_changes
    , ranking := existing.ranking
    , roster := existing.roster
    , roster_pdf := existing.roster_pdf }
  let base := if rosterGroupedOf i ≠ [] then { base with roster := rosterGroupedOf i } else base
  let base := if pyTruthyO i.rosterUrl then { base with roster_pdf := i.rosterUrl } else base
  if pyTruthyO i.latestUrl then
    let base :=
      { base with
        individuals := individualsOf i
      , individuals_pdf := pyOrO i.pUrl (pyOrO i.rosterUrl base.individuals_pdf)
      , sl_changes := extract_sl_changes i.slFetch i.prior }
    if state1Of i then
      match rankingDfOf i with
      | some df =>
        { base with
          last_updated := some i.now
        , source_pdf := i.latestUrl
        , ranking := finalRankingOf i df }
      | none => base
    else if rosterGroupedOf i ≠ [] then
      { base with
        ranking := zeroRanking (rosterGroupedOf i)
      , last_updated := some i.now
      , source_pdf := pyOrO i.latestUrl (pyOrO i.rosterUrl base.source_pdf) }
    else base
  else
    if rosterGroupedOf i ≠ [] then
      { base with
        ranking := zeroRanking (rosterGroupedOf i)
      , individuals := synthIndividuals (rosterEntriesOf i)
      , last_updated := pyOrO base.last_updated (some i.now) }
    else base

/-- Classifier of the roster lines that (re)assign the column-to-team state:
non-blank lines that are a multi-column team-header line or a single
team-header line without `Host` (mirrors the branch structure of
`rosterLineStep`). -/
def setsTeams (ln0 : PyStr) : Bool :=
  let ln := pyRstrip ln0
  if (pyStrip ln).isEmpty then false
  else if (multiTeamHeaders ln).length ≥ 2 then true
  else (singleTeamHeader ln).isSome && !hasSub ("Host".toList) ln

/-- Concrete prior snapshot used by the check runs below. -/
def priorA : Snapshot :=
  { emptySnapshot with
    last_updated := some "OLDSTAMP"
  , source_pdf := some "http://x/S0281.pdf"
  , individuals := [{ team_name := "T", player_name := "P", player_number := "100"
                    , gender := "男", sl := 3, wins := "1/2", avg_points := { mantissa := 5, tenExp := 0 }
                    , points_rate := "50%" }]
  , ranking := [{ team_name := "T", team_id := "1", points := 9 }] }

/-- C1 check run: standings URL located, standings parse empty, no
individual-stats PDF, no roster, prior snapshot with non-empty data. -/
def c1Inputs : Inputs :=
  { prior := some priorA, latestUrl := some "http://x/S0282.pdf", rosterUrl := none
  , pUrl := none, standingsPages := some ["no markers"], pPages := none
  , rosterPages := none, slFetch := none, now := "NOWSTAMP" }

/-- C2 check run: no standings URL, roster present, prior `last_updated` set. -/
def c2Inputs : Inputs :=
  { prior := some priorA, latestUrl := none, rosterUrl := some "http://x/R0281.pdf"
  , pUrl := none, standingsPages := none, pPages := none
  , rosterPages := some ["02801 Kangaroo Kick\nN 5 * 15428 Murayama, Shotaro"]
  , slFetch := none, now := "NOWSTAMP" }

/-- C3 check run: standings parse non-empty, individual stats present but
empty, roster present. -/
def c3Inputs : Inputs :=
  { prior := none, latestUrl := some "http://x/S0283.pdf", rosterUrl := some "http://x/R0281.pdf"
  , pUrl := some "http://x/P0283.pdf", standingsPages := some ["Team #: 1 2\nTotal: 50 70"]
  , pPages := some [""], rosterPages := some ["02801 Kangaroo Kick\nN 5 * 15428 Murayama, Shotaro"]
  , slFetch := none, now := "NOWSTAMP" }

/-- A rating-change row carrying the given member number. -/
def mkChange (m : String) : SlChange :=
  { player_name := "X", member_number := m, old_sl := "2", old_date := "d1"
  , new_sl := "3", new_date := "d2" }

/-- C6 check run: fetched changes for members 100, 200 and 300; the prior
snapshot individuals contain member 100 only; the freshly parsed stats
contain member 200 only. -/
def c6Inputs : Inputs :=
  { prior := some priorA, latestUrl := some "http://x/S0282.pdf", rosterUrl := none
  , pUrl := some "http://x/P0282.pdf", standingsPages := some ["Team #: 1\nTotal: 5"]
  , pPages := some ["Bob 200 2 M 02810 6 5 84 14.00 70.0"]
  , rosterPages := none, slFetch := some [mkChange "100", mkChange "200", mkChange "300"]
  , now := "NOWSTAMP" }

/-- The reference individual-stats line from the source comment (line 202),
including its trailing place column `1`. -/
def c8Line : String := "Hayato Takenaka 16997 2 M 02810 6 5 84 14.00 70.0 % 1"

/-- The record that the parser extracts from `c8Line`. -/
def c8Record : PlayerRecord :=
  { team_name := "yattenna", player_name := "Hayato Takenaka", player_number := "16997"
  , gender := "男", sl := 2, wins := "5/6", avg_points := { mantissa := 14, tenExp := 0 }, points_rate := "70.0%" }

-- ===================================================================
-- THEOREMS
-- ===================================================================

/-- If `028` does not occur in `l`, `replace('028','')` leaves `l` unchanged. -/
theorem remove028_of_not_hasSub (l : PyStr) (h : hasSub DIVISION_CODE l = false) :
    remove028 l = l := by
  induction l using remove028.induct with
  | case1 => rfl
  | case2 c => rfl
  | case3 c d => rfl
  | case4 c d e rest hc ih =>
    exfalso
    obtain ⟨h0, h2, h8⟩ := hc
    subst h0; subst h2; subst h8
    simp [hasSub, List.isPrefixOf, DIVISION_CODE] at h
  | case5 c d e rest hc ih =>
    rw [remove028]
    rw [if_neg hc]
    have h2 : hasSub DIVISION_CODE (d :: e :: rest) = false := by
      rw [hasSub] at h
      exact (Bool.or_eq_false_iff.mp h).2
    rw [ih h2]

/-- C4 (amended): the team-id derivation removes every occurrence of the
division code (Python `replace`), not just the prefix; on codes whose digit
suffix does not contain a further occurrence of `028` this agrees with the
spec description (prefix-strip, remove leading zeros, last-two fallback), and
the two concrete examples of the claim hold.  The identical expression is
used by both the individual-stats parser and the roster parser. -/
theorem C4_team_id_amended :
    (∀ s : PyStr, hasSub DIVISION_CODE s = false →
      deriveTeamIdL (DIVISION_CODE ++ s) = specDeriveIdL (DIVISION_CODE ++ s)) ∧
    deriveTeamId "02810" = "10" ∧ deriveTeamId "02801" = "1" := by
  refine ⟨fun s hs => ?_, by decide, by decide⟩
  have h1 : remove028 (DIVISION_CODE ++ s) = remove028 s := by
    show remove028 ('0' :: '2' :: '8' :: s) = remove028 s
    rw [remove028]
    simp
  have h2 : remove028 s = s := remove028_of_not_hasSub s hs
  have h3 : DIVISION_CODE.isPrefixOf (DIVISION_CODE ++ s) = true := by
    simp [DIVISION_CODE, List.isPrefixOf]
  unfold deriveTeamIdL specDeriveIdL
  rw [h1, h2, h3]
  simp [DIVISION_CODE]

/-- C4 (counterexample): on the code `0280280` (division code followed by the
digits `0280`, which contain a further occurrence of `028`), the code derives
`80` while the claim (strip the division-code prefix, remove leading zeros)
demands `280`; so the claim as universally stated is false. -/
theorem C4_counterexample :
    deriveTeamId "0280280" = "80" ∧ specDeriveId "0280280" = "280" ∧
      ("80" : String) ≠ "280" := by
  refine ⟨by decide, by decide, by decide⟩

/-- Witness for `C4_team_id_amended` at the concrete suffix `10`. -/
theorem C4_witness :
    hasSub DIVISION_CODE ['1', '0'] = false ∧
    deriveTeamIdL (DIVISION_CODE ++ ['1', '0']) = specDeriveIdL (DIVISION_CODE ++ ['1', '0']) :=
  ⟨by decide, C4_team_id_amended.1 ['1', '0'] (by decide)⟩

/-- Lookup over an append: the left list wins. -/
theorem lookup_append {β : Type} (d e : List (String × β)) (k : String) :
    List.lookup k (d ++ e) = (List.lookup k d).orElse (fun _ => List.lookup k e) := by
  induction d with
  | nil => simp [List.lookup]
  | cons q d ih =>
    obtain ⟨a, b⟩ := q
    by_cases h : (k == a) = true
    · simp [List.lookup, h]
    · simp only [List.cons_append, List.lookup, h]
      exact ih

/-- A key is absent from an association list iff its lookup is `none`. -/
theorem lookup_none_iff {β : Type} (d : List (String × β)) (k : String) :
    List.lookup k d = none ↔ k ∉ d.map Prod.fst := by
  induction d with
  | nil => simp [List.lookup]
  | cons q d ih =>
    obtain ⟨a, b⟩ := q
    by_cases h : k = a
    · subst h
      simp [List.lookup]
    · have hb : (k == a) = false := by simpa using h
      simp [List.lookup, hb, ih, h]

/-- Step lemma: `stepTeam` never changes the binding of a key that is already present. -/
theorem stepTeam_lookup_some (d : List (String × Int)) (q : String × PyStr) (k : String)
    (h : (List.lookup k d).isSome = true) :
    List.lookup k (stepTeam d q) = List.lookup k d := by
  unfold stepTeam
  split_ifs with h1
  · rfl
  · cases hp : pyInt? q.2 with
    | none => rfl
    | some v =>
      rw [lookup_append]
      cases hd : List.lookup k d with
      | none => rw [hd] at h; simp at h
      | some b => rfl

/-- The fold over a page never changes the binding of a present key. -/
theorem foldl_stepTeam_lookup_some (ps : List (String × PyStr)) :
    ∀ d k, (List.lookup k d).isSome = true →
      List.lookup k (ps.foldl stepTeam d) = List.lookup k d := by
  induction ps with
  | nil => intro d k _; rfl
  | cons q ps ih =>
    intro d k h
    rw [List.foldl_cons]
    have hstep := stepTeam_lookup_some d q k h
    have hsome : (List.lookup k (stepTeam d q)).isSome = true := by rw [hstep]; exact h
    rw [ih (stepTeam d q) k hsome, hstep]

/-- Characterisation of the fold over a page at a fresh key: the binding is
the first integer-parseable point token among the pairs carrying that key
(a pair with an unparseable token is skipped without blocking later pairs). -/
theorem foldl_stepTeam_lookup_none (ps : List (String × PyStr)) :
    ∀ d k, List.lookup k d = none →
      List.lookup k (ps.foldl stepTeam d) =
        ((ps.filter (fun q => q.1 == k)).filterMap (fun q => pyInt? q.2)).head? := by
  induction ps with
  | nil => intro d k h; simpa using h
  | cons q ps ih =>
    intro d k h
    obtain ⟨a, p⟩ := q
    rw [List.foldl_cons]
    by_cases hk : (a == k) = true
    · have hak : a = k := by simpa using hk
      subst hak
      have h1 : ¬ ((List.lookup a d).isSome = true) := by simp [h]
      cases hp : pyInt? p with
      | some v =>
        have hstep : stepTeam d (a, p) = d ++ [(a, v)] := by
          unfold stepTeam
          rw [if_neg h1, hp]
        have hlook : List.lookup a (stepTeam d (a, p)) = some v := by
          rw [hstep, lookup_append, h]
          simp [List.lookup]
        have := foldl_stepTeam_lookup_some ps (stepTeam d (a, p)) a (by rw [hlook]; rfl)
        rw [this, hlook]
        simp [List.filter_cons, hk, List.filterMap_cons, hp]
      | none =>
        have hstep : stepTeam d (a, p) = d := by
          unfold stepTeam
          rw [if_neg h1, hp]
        rw [hstep, ih d a h]
        simp [List.filter_cons, hk, List.filterMap_cons, hp]
    · have hak : ¬ a = k := by simpa using hk
      have hka : (k == a) = false := by
        rw [beq_eq_false_iff_ne]
        exact fun hc => hak hc.symm
      have hne : List.lookup k (stepTeam d (a, p)) = none := by
        unfold stepTeam
        split_ifs with h1
        · exact h
        · cases hp : pyInt? p with
          | none => exact h
          | some v =>
            rw [lookup_append, h]
            simp [List.lookup, hka, Option.orElse]
      rw [ih (stepTeam d (a, p)) k hne]
      simp [List.filter_cons, hk]

/-- Step lemma: `stepTeam` preserves distinctness of the keys. -/
theorem stepTeam_nodup (d : List (String × Int)) (q : String × PyStr)
    (h : (d.map Prod.fst).Nodup) : ((stepTeam d q).map Prod.fst).Nodup := by
  unfold stepTeam
  split_ifs with h1
  · exact h
  · cases hp : pyInt? q.2 with
    | none => exact h
    | some v =>
      have hmem : q.1 ∉ d.map Prod.fst := by
        rw [← lookup_none_iff]
        cases hd : List.lookup q.1 d with
        | none => rfl
        | some b => rw [hd] at h1; simp at h1
      simp [List.map_append, List.nodup_append, hmem, h]

/-- The fold over a page preserves distinctness of the keys. -/
theorem foldl_stepTeam_nodup (ps : List (String × PyStr)) :
    ∀ d, (d.map Prod.fst).Nodup → (((ps.foldl stepTeam d)).map Prod.fst).Nodup := by
  induction ps with
  | nil => intro d h; exact h
  | cons q ps ih =>
    intro d h
    rw [List.foldl_cons]
    exact ih (stepTeam d q) (stepTeam_nodup d q h)

/-- Page lemma: `processPage` preserves distinctness of the keys. -/
theorem processPage_nodup (d : List (String × Int)) (t : PyStr)
    (h : (d.map Prod.fst).Nodup) : ((processPage d t).map Prod.fst).Nodup := by
  unfold processPage
  split_ifs
  · exact foldl_stepTeam_nodup _ d h
  · exact h

/-- The accumulated standings mapping has pairwise distinct keys. -/
theorem rankingDict_nodup (pages : List String) :
    ((rankingDict pages).map Prod.fst).Nodup := by
  unfold rankingDict
  have h : ∀ (pgs : List String) (d : List (String × Int)), (d.map Prod.fst).Nodup →
      (((pgs.foldl (fun d pg => processPage d pg.toList) d)).map Prod.fst).Nodup := by
    intro pgs
    induction pgs with
    | nil => intro d h; exact h
    | cons pg pgs ih =>
      intro d h
      rw [List.foldl_cons]
      exact ih _ (processPage_nodup d pg.toList h)
  exact h pages [] (by simp)

/-- Members of a stable insertion. -/
theorem mem_insertLe {α : Type} (le : α → α → Bool) (x a : α) (s : List α) :
    a ∈ insertLe le x s ↔ a = x ∨ a ∈ s := by
  induction s with
  | nil => simp [insertLe]
  | cons y ys ih =>
    unfold insertLe
    split_ifs
    · simp [List.mem_cons]
    · simp only [List.mem_cons, ih]
      tauto

/-- A stable insertion is a permutation of a cons. -/
theorem insertLe_perm {α : Type} (le : α → α → Bool) (x : α) (s : List α) :
    (insertLe le x s).Perm (x :: s) := by
  induction s with
  | nil => simp [insertLe]
  | cons y ys ih =>
    unfold insertLe
    split_ifs
    · exact List.Perm.refl _
    · exact (ih.cons y).trans (List.Perm.swap x y ys)

/-- The stable insertion sort permutes its input. -/
theorem sortLe_perm {α : Type} (le : α → α → Bool) (l : List α) :
    (sortLe le l).Perm l := by
  induction l with
  | nil => exact List.Perm.refl _
  | cons x xs ih =>
    show (insertLe le x (sortLe le xs)).Perm (x :: xs)
    exact (insertLe_perm le x (sortLe le xs)).trans (ih.cons x)

/-- Inserting into a descending list keeps it descending. -/
theorem insertLe_pairwise_desc (x : String × Int) (s : List (String × Int))
    (h : List.Pairwise (fun a b => b.2 ≤ a.2) s) :
    List.Pairwise (fun a b => b.2 ≤ a.2) (insertLe pointsDescLe x s) := by
  induction s with
  | nil => simp [insertLe]
  | cons y ys ih =>
    rcases List.pairwise_cons.mp h with ⟨hy, hys⟩
    unfold insertLe
    split_ifs with hle
    · have hxy : y.2 ≤ x.2 := by simpa [pointsDescLe] using hle
      refine List.pairwise_cons.mpr ⟨?_, h⟩
      intro b hb
      rcases List.mem_cons.mp hb with rfl | hb2
      · exact hxy
      · exact le_trans (hy b hb2) hxy
    · have hxy : ¬ (y.2 ≤ x.2) := by simpa [pointsDescLe] using hle
      refine List.pairwise_cons.mpr ⟨?_, ih hys⟩
      intro b hb
      rcases (mem_insertLe pointsDescLe x b ys).mp hb with rfl | hb2
      · omega
      · exact hy b hb2

/-- The standings sort produces a points-descending list. -/
theorem sortLe_pairwise_desc (l : List (String × Int)) :
    List.Pairwise (fun a b => b.2 ≤ a.2) (sortLe pointsDescLe l) := by
  induction l with
  | nil => simp [sortLe]
  | cons x xs ih =>
    show List.Pairwise _ (insertLe pointsDescLe x (sortLe pointsDescLe xs))
    exact insertLe_pairwise_desc x _ ih

/-- Stability of the insertion at one points class. -/
theorem insertLe_filter_points (x : String × Int) (s : List (String × Int)) (p : Int) :
    (insertLe pointsDescLe x s).filter (fun q => q.2 == p) =
      if x.2 = p then x :: s.filter (fun q => q.2 == p)
      else s.filter (fun q => q.2 == p) := by
  induction s with
  | nil =>
    by_cases hx : x.2 = p <;> simp [insertLe, List.filter_cons, hx]
  | cons y ys ih =>
    rw [insertLe]
    by_cases hle : pointsDescLe x y = true
    · rw [if_pos hle]
      by_cases hx : x.2 = p <;> simp [List.filter_cons, hx]
    · rw [if_neg hle]
      have hxy : x.2 < y.2 := by
        have h2 : ¬ (y.2 ≤ x.2) := by simpa [pointsDescLe] using hle
        omega
      by_cases hx : x.2 = p
      · have hy : ¬ (y.2 = p) := by omega
        simp [List.filter_cons, hx, hy, ih]
      · by_cases hy : y.2 = p <;> simp [List.filter_cons, hx, hy, ih]

/-- Stability of the standings sort: every points class keeps its
first-seen order. -/
theorem sortLe_filter_points (l : List (String × Int)) (p : Int) :
    (sortLe pointsDescLe l).filter (fun q => q.2 == p) =
      l.filter (fun q => q.2 == p) := by
  induction l with
  | nil => rfl
  | cons x xs ih =>
    show (insertLe pointsDescLe x (sortLe pointsDescLe xs)).filter _ = _
    rw [insertLe_filter_points]
    by_cases hx : x.2 = p
    · simp [List.filter_cons, hx, ih]
    · simp [List.filter_cons, hx, ih]

/-- C5: StandingsParser reference behaviour.  (1) A page whose numeric
team-number tokens and point tokens differ in count, or are empty,
contributes nothing.  (2) A team number already bound keeps its first-seen
value across any further page.  (3) At a fresh team number, the new binding
is the first integer-parseable point token paired with it on the page (an
unparseable token is skipped without discarding the other pairs of the
page).  (4) The materialised ranking is sorted by points descending, its
team numbers are pairwise distinct, every points class preserves first-seen
insertion order, and it is a permutation of the accumulated mapping. -/
theorem C5_standings_behavior :
    (∀ d t, goodPage t = false → processPage d t = d) ∧
    (∀ d t k, (List.lookup k d).isSome = true →
      List.lookup k (processPage d t) = List.lookup k d) ∧
    (∀ d t k, List.lookup k d = none →
      List.lookup k (processPage d t) =
        (if goodPage t then
          (((pagePairs t).filter (fun q => q.1 == k)).filterMap (fun q => pyInt? q.2)).head?
         else none)) ∧
    (∀ pages,
      List.Pairwise (fun a b => b.2 ≤ a.2) (extract_and_process_ranking pages) ∧
      ((extract_and_process_ranking pages).map Prod.fst).Nodup ∧
      (∀ p : Int, (extract_and_process_ranking pages).filter (fun q => q.2 == p) =
        (rankingDict pages).filter (fun q => q.2 == p)) ∧
      (extract_and_process_ranking pages).Perm (rankingDict pages)) := by
  refine ⟨?_, ?_, ?_, ?_⟩
  · intro d t hbad
    unfold processPage
    rw [if_neg (by simp [hbad])]
  · intro d t k h
    unfold processPage
    split_ifs
    · exact foldl_stepTeam_lookup_some (pagePairs t) d k h
    · rfl
  · intro d t k h
    unfold processPage
    split_ifs with hg
    · exact foldl_stepTeam_lookup_none (pagePairs t) d k h
    · exact h
  · intro pages
    refine ⟨sortLe_pairwise_desc _, ?_, ?_, sortLe_perm _ _⟩
    · have hperm : ((extract_and_process_ranking pages).map Prod.fst).Perm
          ((rankingDict pages).map Prod.fst) :=
        (sortLe_perm pointsDescLe (rankingDict pages)).map Prod.fst
      exact hperm.nodup_iff.mpr (rankingDict_nodup pages)
    · intro p
      exact sortLe_filter_points (rankingDict pages) p

/-- Witness for `C5_standings_behavior` at concrete pages: a count-mismatch
page contributes nothing; a bound team number survives a further page; a
fresh team number receives the first parseable token among its pairs even
when a sibling token on the page is unparseable. -/
theorem C5_witness :
    goodPage ("Team #: 1 2\nTotal: 50".toList) = false ∧
    processPage [("9", 1)] ("Team #: 1 2\nTotal: 50".toList) = [("9", 1)] ∧
    (List.lookup "1" [("1", (50 : Int))]).isSome = true ∧
    List.lookup "1" (processPage [("1", (50 : Int))] ("Team #: 1\nTotal: 99".toList)) =
      List.lookup "1" [("1", (50 : Int))] ∧
    List.lookup "2" ([] : List (String × Int)) = none ∧
    List.lookup "2" (processPage ([] : List (String × Int)) ("Team #: 1 2\nTotal: x 7".toList)) =
      (if goodPage ("Team #: 1 2\nTotal: x 7".toList) then
        (((pagePairs ("Team #: 1 2\nTotal: x 7".toList)).filter (fun q => q.1 == "2")).filterMap
          (fun q => pyInt? q.2)).head?
       else none) :=
  ⟨by decide, C5_standings_behavior.1 _ _ (by decide), by decide,
   C5_standings_behavior.2.1 _ _ _ (by decide), by decide,
   C5_standings_behavior.2.2.1 _ _ _ (by decide)⟩

/-- A line that assigns no team state leaves an empty column state empty
and contributes no entries. -/
theorem rosterLineStep_no_header (acc : List RosterEntry) (ln : PyStr)
    (h : setsTeams ln = false) :
    rosterLineStep ([], acc) ln = ([], acc) := by
  simp only [rosterLineStep]
  simp only [setsTeams] at h
  by_cases hb : (pyStrip (pyRstrip ln)).isEmpty = true
  · rw [if_pos hb]
  · rw [if_neg hb] at h
    rw [if_neg hb]
    by_cases hm : 2 ≤ (multiTeamHeaders (pyRstrip ln)).length
    · rw [if_pos hm] at h
      exact absurd h (by simp)
    · rw [if_neg hm] at h
      rw [if_neg hm]
      rw [if_neg (show ¬ (((singleTeamHeader (pyRstrip ln)).isSome &&
            !hasSub ("Host".toList) (pyRstrip ln)) = true) by rw [h]; simp)]
      split_ifs <;> simp_all

/-- Folding non-header lines from the empty column state is the identity. -/
theorem foldl_roster_no_header (pre : List PyStr) :
    ∀ acc, (∀ l ∈ pre, setsTeams l = false) →
      pre.foldl rosterLineStep ([], acc) = ([], acc) := by
  induction pre with
  | nil => intro acc _; rfl
  | cons l pre ih =>
    intro acc h
    rw [List.foldl_cons, rosterLineStep_no_header acc l (h l (List.mem_cons_self l pre))]
    exact ih acc (fun x hx => h x (List.mem_cons_of_mem l hx))

/-- C10: the roster parser's column-to-team state is reset at every page
boundary (extraction distributes over page concatenation), and on any page
the lines preceding the first team-header line contribute no entry: dropping
a header-free prefix of a page leaves the result unchanged, and a page of
only header-free lines parses to nothing. -/
theorem C10_roster_state_reset :
    (∀ ps qs, extract_team_roster (ps ++ qs) =
      extract_team_roster ps ++ extract_team_roster qs) ∧
    (∀ pre rest, (∀ l ∈ pre, setsTeams l = false) →
      rosterPageEntries (pre ++ rest) = rosterPageEntries rest) ∧
    (∀ pre, (∀ l ∈ pre, setsTeams l = false) → rosterPageEntries pre = []) := by
  refine ⟨?_, ?_, ?_⟩
  · intro ps qs
    unfold extract_team_roster
    exact List.flatMap_append ps qs _
  · intro pre rest h
    unfold rosterPageEntries
    rw [List.foldl_append, foldl_roster_no_header pre [] h]
  · intro pre h
    unfold rosterPageEntries
    rw [foldl_roster_no_header pre [] h]

/-- Witness for `C10_roster_state_reset`: a player-block line before the
first header of a page contributes nothing, while the same page suffix with
a header does produce entries. -/
theorem C10_witness :
    setsTeams ("N 5 * 15428 Foo".toList) = false ∧
    rosterPageEntries (["N 5 * 15428 Foo".toList] ++
        ["02801 Kangaroo Kick".toList, "N 2 * 16770 Bar".toList]) =
      rosterPageEntries ["02801 Kangaroo Kick".toList, "N 2 * 16770 Bar".toList] ∧
    rosterPageEntries ["02801 Kangaroo Kick".toList, "N 2 * 16770 Bar".toList] ≠ [] :=
  ⟨by decide, C10_roster_state_reset.2.1 _ _ (by decide), by decide⟩

/-- C8 (counterexample): the reference line from the source comment, whose
trailing place column `1` is an eleventh field, is not a full-line match of
the 10-field schema, yet the parser extracts a record from it — `re.match`
anchors at the start of the line only, refuting the claimed full-line
discipline. -/
theorem C8_counterexample :
    matchesFullSchema c8Line.toList = false ∧
    extract_individual_stats [c8Line] = [c8Record] :=
  ⟨by decide, by decide⟩

/-- C8 (amended): every non-empty trimmed line is matched against the
positional schema anchored at the start of the line only, with any trailing
text (such as the place column) left unconsumed; lines whose anchored match
fails contribute no record; matching lines contribute exactly one record
each in document order, and duplicates across pages are kept, the extraction
being a per-page concatenation. -/
theorem C8_parser_amended :
    (∀ ps qs, extract_individual_stats (ps ++ qs) =
      extract_individual_stats ps ++ extract_individual_stats qs) ∧
    (∀ t : PyStr, (∀ ln ∈ ((t.splitOn '\n').map pyStrip).filter (· ≠ []),
        matchIndivLine ln = none) → indivLineRecords t = []) ∧
    extract_individual_stats [c8Line] = [c8Record] := by
  refine ⟨?_, ?_, by decide⟩
  · intro ps qs
    unfold extract_individual_stats
    exact List.flatMap_append ps qs _
  · intro t h
    unfold indivLineRecords
    rw [List.filterMap_eq_nil_iff]
    intro ln hln
    rw [h ln hln]
    rfl

/-- Witness for `C8_parser_amended`: a page whose only line fails the
anchored match contributes nothing. -/
theorem C8_witness :
    matchIndivLine ("garbage line".toList) = none ∧
    indivLineRecords ("garbage line".toList) = [] :=
  ⟨by decide, C8_parser_amended.2.1 _ (by decide)⟩

/-- Success of `candGt` implies a suffix bound. -/
theorem candGt_le (c b : Nat × String) (h : candGt c b = true) : b.1 ≤ c.1 := by
  unfold candGt at h
  have h' : b.1 < c.1 ∨ (c.1 = b.1 ∧ lexLt b.2.toList c.2.toList = true) := by
    simpa using h
  rcases h' with h1 | ⟨h1, _⟩ <;> omega

/-- Failure of `candGt` implies the reverse suffix bound. -/
theorem candGt_false_le (c b : Nat × String) (h : candGt c b = false) : c.1 ≤ b.1 := by
  unfold candGt at h
  have h1 := (Bool.or_eq_false_iff.mp h).1
  have h2 : ¬ (b.1 < c.1) := by simpa using h1
  omega

/-- Case split: `maxStep` yields either the new candidate or the accumulator. -/
theorem maxStep_cases (acc : Option (Nat × String)) (c : Nat × String) :
    maxStep acc c = some c ∨ maxStep acc c = acc := by
  cases acc with
  | none => exact Or.inl rfl
  | some b =>
    by_cases hgt : candGt c b = true
    · exact Or.inl (by simp [maxStep, hgt])
    · exact Or.inr (by simp [maxStep, hgt])

/-- The candidate fold returns the accumulator or a list element. -/
theorem foldl_maxStep_mem (l : List (Nat × String)) :
    ∀ acc m, l.foldl maxStep acc = some m → acc = some m ∨ m ∈ l := by
  induction l with
  | nil => intro acc m h; exact Or.inl h
  | cons c l ih =>
    intro acc m h
    rw [List.foldl_cons] at h
    rcases ih (maxStep acc c) m h with hstep | hmem
    · rcases maxStep_cases acc c with h1 | h1
      · rw [h1] at hstep
        right
        rw [List.mem_cons]
        exact Or.inl (Option.some_inj.mp hstep).symm
      · rw [h1] at hstep
        exact Or.inl hstep
    · exact Or.inr (List.mem_cons_of_mem c hmem)

/-- Monotonicity: `maxStep` never decreases the tracked integer suffix. -/
theorem maxStep_fst_le (acc : Option (Nat × String)) (c m : Nat × String)
    (h : maxStep acc c = some m) :
    (∀ x, acc = some x → x.1 ≤ m.1) ∧ c.1 ≤ m.1 := by
  cases acc with
  | none =>
    have hc : c.1 = m.1 := by
      have hcm : c = m := by simpa [maxStep] using h
      rw [hcm]
    exact ⟨fun x hx => absurd hx (by simp), by omega⟩
  | some b =>
    by_cases hgt : candGt c b = true
    · have hc : c.1 = m.1 := by
        have hcm : c = m := by simpa [maxStep, hgt] using h
        rw [hcm]
      have hbc : b.1 ≤ c.1 := candGt_le c b hgt
      refine ⟨fun x hx => ?_, by omega⟩
      have hbx : b.1 = x.1 := by
        have hbb : b = x := by simpa using hx
        rw [hbb]
      omega
    · have hbm : b.1 = m.1 := by
        have hbb : b = m := by simpa [maxStep, hgt] using h
        rw [hbb]
      have hf : candGt c b = false := by
        revert hgt
        cases candGt c b <;> simp
      have hcb : c.1 ≤ b.1 := candGt_false_le c b hf
      refine ⟨fun x hx => ?_, by omega⟩
      have hbx : b.1 = x.1 := by
        have hbb : b = x := by simpa using hx
        rw [hbb]
      omega

/-- The candidate fold result bounds every suffix seen. -/
theorem foldl_maxStep_ge (l : List (Nat × String)) :
    ∀ acc m, l.foldl maxStep acc = some m →
      (∀ x, acc = some x → x.1 ≤ m.1) ∧ ∀ c ∈ l, c.1 ≤ m.1 := by
  induction l with
  | nil =>
    intro acc m h
    have h0 : acc = some m := h
    refine ⟨fun x hx => ?_, fun c hc => absurd hc (List.not_mem_nil c)⟩
    have hmx : m.1 = x.1 := by
      rw [h0] at hx
      rw [Option.some_inj.mp hx]
    omega
  | cons c l ih =>
    intro acc m h
    rw [List.foldl_cons] at h
    obtain ⟨hacc, hmem⟩ := ih (maxStep acc c) m h
    obtain ⟨y, hy⟩ : ∃ y, maxStep acc c = some y := by
      cases acc with
      | none => exact ⟨c, rfl⟩
      | some b =>
        by_cases hgt : candGt c b = true
        · exact ⟨c, by simp [maxStep, hgt]⟩
        · exact ⟨b, by simp [maxStep, hgt]⟩
    have hyle : y.1 ≤ m.1 := hacc y hy
    obtain ⟨hstep_acc, hstep_c⟩ := maxStep_fst_le acc c y hy
    refine ⟨fun x hx => le_trans (hstep_acc x hx) hyle, fun b hb => ?_⟩
    rcases List.mem_cons.mp hb with rfl | hb2
    · exact le_trans hstep_c hyle
    · exact hmem b hb2

/-- The candidate fold from a `some` accumulator stays `some`. -/
theorem foldl_maxStep_isSome (l : List (Nat × String)) :
    ∀ b, (l.foldl maxStep (some b)).isSome = true := by
  induction l with
  | nil => intro b; rfl
  | cons c l ih =>
    intro b
    rw [List.foldl_cons]
    obtain ⟨y, hy⟩ : ∃ y, maxStep (some b) c = some y := by
      by_cases hgt : candGt c b = true
      · exact ⟨c, by simp [maxStep, hgt]⟩
      · exact ⟨b, by simp [maxStep, hgt]⟩
    rw [hy]
    exact ih y

/-- A nonempty candidate list yields a maximum. -/
theorem maxCand_isSome (l : List (Nat × String)) (h : l ≠ []) :
    (maxCand l).isSome = true := by
  obtain ⟨c, rest, rfl⟩ := List.exists_cons_of_ne_nil h
  unfold maxCand
  rw [List.foldl_cons]
  show (rest.foldl maxStep (maxStep none c)).isSome = true
  exact foldl_maxStep_isSome rest c

/-- Every absolutised URL starts with `http`. -/
theorem absolutize_http (h : String) :
    ("http".toList).isPrefixOf (absolutize h).toList = true := by
  unfold absolutize
  split_ifs with hp
  · exact hp
  · have hd : (BASE_URL ++ h).toList = BASE_URL.toList ++ h.toList := by
      show (BASE_URL ++ h).data = BASE_URL.data ++ h.data
      exact String.data_append BASE_URL h
    rw [hd]
    rw [ List.isPrefixOf_iff_prefix]
    have h1 : "http".toList <+: BASE_URL.toList :=
      ⟨"://www.poolplayers.jp".toList, by decide⟩
    exact h1.trans ⟨h.toList, rfl⟩

/-- C7 (counterexample): with hrefs `S0285.PDF` and `S0282.pdf` in the row,
the claimed case-insensitive maximal-suffix selection picks the suffix-5
candidate, but the code's pattern requires a lowercase `.pdf`, so only the
suffix-2 href is a candidate and the code returns it. -/
theorem C7_counterexample :
    find_latest_pdf_url ["/x/S0285.PDF", "/x/S0282.pdf"] =
      some "http://www.poolplayers.jp/x/S0282.pdf" ∧
    specLocate ["/x/S0285.PDF", "/x/S0282.pdf"] =
      some "http://www.poolplayers.jp/x/S0285.PDF" ∧
    ("http://www.poolplayers.jp/x/S0282.pdf" : String) ≠
      "http://www.poolplayers.jp/x/S0285.PDF" :=
  ⟨by decide, by decide, by decide⟩

/-- C7 (amended): every URL returned by the standings locator is the
absolutised form of a row href and starts with `http`; when the
case-sensitive pattern `S028<digits>.pdf` (lowercase `.pdf`) has at least
one candidate, the returned URL is a candidate of maximal integer suffix;
with zero candidates the fallback returns the first href whose absolutised
URL ends in `.pdf` case-insensitively (hence fallback results end in
`.pdf`); `find_pdf_url_by_type` has no fallback at all. -/
theorem C7_locator_amended :
    (∀ links u, find_latest_pdf_url links = some u →
      ("http".toList).isPrefixOf u.toList = true ∧ ∃ h ∈ links, u = absolutize h) ∧
    (∀ links, sCandidates links ≠ [] →
      ∃ n u, find_latest_pdf_url links = some u ∧ (n, u) ∈ sCandidates links ∧
        ∀ c ∈ sCandidates links, c.1 ≤ n) ∧
    (∀ links, sCandidates links = [] →
      find_latest_pdf_url links =
        (links.find? (fun h => if h = "" then false else lowerEndsPdf (absolutize h))).map
          absolutize) ∧
    (∀ links u, sCandidates links = [] → find_latest_pdf_url links = some u →
      lowerEndsPdf u = true) ∧
    (∀ tc links, typeCandidates tc links = [] → find_pdf_url_by_type tc links = none) := by
  have hprov : ∀ (links : List String) (c : Nat × String),
      maxCand (sCandidates links) = some c → ∃ h ∈ links, c.2 = absolutize h := by
    intro links c hm
    rcases foldl_maxStep_mem (sCandidates links) none c hm with h1 | h1
    · cases h1
    · rcases List.mem_filterMap.mp h1 with ⟨h, hmem, hf⟩
      by_cases hh : h = ""
      · rw [if_pos hh] at hf
        cases hf
      · rw [if_neg hh] at hf
        rcases Option.map_eq_some'.mp hf with ⟨n, _, hc⟩
        exact ⟨h, hmem, by rw [← hc]⟩
  refine ⟨?_, ?_, ?_, ?_, ?_⟩
  · intro links u hu
    unfold find_latest_pdf_url at hu
    cases hm : maxCand (sCandidates links) with
    | some c =>
      rw [hm] at hu
      obtain rfl : c.2 = u := Option.some_inj.mp hu
      obtain ⟨h, hmem, hc⟩ := hprov links c hm
      exact ⟨by rw [hc]; exact absolutize_http h, h, hmem, hc⟩
    | none =>
      rw [hm] at hu
      rcases Option.map_eq_some'.mp hu with ⟨h, hfind, hc⟩
      exact ⟨by rw [← hc]; exact absolutize_http h, h, List.mem_of_find?_eq_some hfind, hc.symm⟩
  · intro links hne
    have hsome := maxCand_isSome (sCandidates links) hne
    rcases hex : maxCand (sCandidates links) with _ | m
    · rw [hex] at hsome
      simp at hsome
    · refine ⟨m.1, m.2, ?_, ?_, ?_⟩
      · unfold find_latest_pdf_url
        rw [hex]
      · rcases foldl_maxStep_mem (sCandidates links) none m hex with h1 | h1
        · cases h1
        · exact h1
      · intro c hc
        exact (foldl_maxStep_ge (sCandidates links) none m hex).2 c hc
  · intro links hcand
    unfold find_latest_pdf_url
    rw [hcand]
    rfl
  · intro links u hcand hu
    unfold find_latest_pdf_url at hu
    rw [hcand] at hu
    have hu2 : (links.find? (fun h => if h = "" then false
        else lowerEndsPdf (absolutize h))).map absolutize = some u := hu
    rcases Option.map_eq_some'.mp hu2 with ⟨h, hfind, hc⟩
    have hp := List.find?_some hfind
    by_cases hh : h = ""
    · rw [if_pos hh] at hp
      cases hp
    · rw [if_neg hh] at hp
      rw [← hc]
      exact hp
  · intro tc links hcand
    unfold find_pdf_url_by_type
    rw [hcand]
    rfl

/-- Witness for `C7_locator_amended` on a candidate-free row: the fallback
fires and its result ends in `.pdf` case-insensitively. -/
theorem C7_witness :
    sCandidates ["/x/foo.PDF"] = [] ∧
    find_latest_pdf_url ["/x/foo.PDF"] = some "http://www.poolplayers.jp/x/foo.PDF" ∧
    lowerEndsPdf "http://www.poolplayers.jp/x/foo.PDF" = true :=
  ⟨by decide, by decide,
   C7_locator_amended.2.2.2.1 ["/x/foo.PDF"] _ (by decide) (by decide)⟩

/-- C9: with no parseable prior snapshot on disk, the member filter set is
empty, so `extract_sl_changes` returns the empty list no matter how many
entries the fetched rating-change report contains. -/
theorem C9_no_prior_empty (fetched : Option (List SlChange)) :
    extract_sl_changes fetched none = [] := by
  cases fetched with
  | none => rfl
  | some cs =>
    unfold extract_sl_changes memberSetOf
    simp

/-- C1 (evaluation at the failing input): on a run where the standings URL
is located but the page parses to an empty mapping, no individual-stats PDF
is found and no roster is parsed, the code overwrites the previously
persisted non-empty `individuals` with the empty list, while `ranking`,
`last_updated` and `source_pdf` are retained — contradicting the claimed
(and spec-stated) retention of `individuals`. -/
theorem C1_code_bug_eval :
    rankingDfOf c1Inputs = some [] ∧
    rosterEntriesOf c1Inputs = [] ∧
    (existingOf c1Inputs).individuals ≠ [] ∧
    (runMain c1Inputs).individuals = [] ∧
    (runMain c1Inputs).ranking = (existingOf c1Inputs).ranking ∧
    (runMain c1Inputs).last_updated = (existingOf c1Inputs).last_updated ∧
    (runMain c1Inputs).source_pdf = (existingOf c1Inputs).source_pdf := by
  decide

/-- A nonempty roster entry list groups to a nonempty team list. -/
theorem group_roster_by_team_ne_nil (es : List RosterEntry) (h : es ≠ []) :
    group_roster_by_team es ≠ [] := by
  obtain ⟨e, rest, rfl⟩ := List.exists_cons_of_ne_nil h
  have h1 : ∀ (fs : List RosterEntry) (g : List (String × RosterTeam)), g ≠ [] →
      fs.foldl groupStep g ≠ [] := by
    intro fs
    induction fs with
    | nil => intro g hg; exact hg
    | cons f fs ih =>
      intro g hg
      rw [List.foldl_cons]
      apply ih
      unfold groupStep
      split_ifs with hl
      · intro hc
        exact hg (List.map_eq_nil_iff.mp hc)
      · simp
  have h2 : (e :: rest).foldl groupStep [] ≠ [] := by
    rw [List.foldl_cons]
    apply h1
    unfold groupStep
    simp [List.lookup]
  intro hc
  unfold group_roster_by_team at hc
  have hperm := sortLe_perm (fun a b => lexLe a.team_name.toList b.team_name.toList)
    (((e :: rest).foldl groupStep []).map Prod.snd)
  rw [hc] at hperm
  have hlen := hperm.length_eq
  simp only [List.length_nil, List.length_map] at hlen
  exact h2 (List.eq_nil_of_length_eq_zero hlen.symm)

/-- C3: on a run with a located standings URL where the individual-stats
parse yields zero records but the roster parse yields entries, the final
individuals are exactly the zero-filled roster-synthesised records (one per
roster entry, wins `0/0`, average points 0.0, points rate `0%`), and the
final ranking is the zero-point roster-synthesised ranking — even when the
standings document parsed into a non-empty mapping, state 1 being
suppressed by the roster-provenance flag. -/
theorem C3_roster_suppression (i : Inputs) (h1 : pyTruthyO i.latestUrl = true)
    (h2 : pIndividualsOf i = []) (h3 : rosterEntriesOf i ≠ []) :
    (runMain i).individuals = synthIndividuals (rosterEntriesOf i) ∧
    (runMain i).individuals.length = (rosterEntriesOf i).length ∧
    (∀ r ∈ (runMain i).individuals, r.wins = "0/0" ∧
      r.avg_points = { mantissa := 0, tenExp := 0 } ∧ r.points_rate = "0%") ∧
    (runMain i).ranking = zeroRanking (rosterGroupedOf i) := by
  have hfr : individualsFromRosterOf i = true := by
    unfold individualsFromRosterOf
    rw [h2]
    simp [h3]
  have hs1 : state1Of i = false := by
    unfold state1Of
    cases hdf : rankingDfOf i with
    | none => rfl
    | some df => simp [hfr]
  have hgr : rosterGroupedOf i ≠ [] := by
    unfold rosterGroupedOf
    rw [if_pos h3]
    exact group_roster_by_team_ne_nil _ h3
  have hind : individualsOf i = synthIndividuals (rosterEntriesOf i) := by
    unfold individualsOf
    rw [if_pos hfr]
  have hmain : (runMain i).individuals = synthIndividuals (rosterEntriesOf i) ∧
      (runMain i).ranking = zeroRanking (rosterGroupedOf i) := by
    unfold runMain
    rw [if_pos h1, hs1]
    rw [if_neg (by simp : ¬ (false = true))]
    rw [if_pos hgr]
    constructor
    · simp [hind]
    · simp
  refine ⟨hmain.1, ?_, ?_, hmain.2⟩
  · rw [hmain.1]
    unfold synthIndividuals
    rw [List.length_map]
  · intro r hr
    rw [hmain.1] at hr
    unfold synthIndividuals at hr
    rcases List.mem_map.mp hr with ⟨e, _, he⟩
    rw [← he]
    exact ⟨rfl, rfl, rfl⟩

/-- Witness for `C3_roster_suppression` at a concrete run in which the
standings page parses to a non-empty mapping. -/
theorem C3_witness :
    pyTruthyO c3Inputs.latestUrl = true ∧
    pIndividualsOf c3Inputs = [] ∧
    rosterEntriesOf c3Inputs ≠ [] ∧
    rankingDfOf c3Inputs = some [("2", 70), ("1", 50)] ∧
    (runMain c3Inputs).individuals = synthIndividuals (rosterEntriesOf c3Inputs) ∧
    (runMain c3Inputs).ranking = zeroRanking (rosterGroupedOf c3Inputs) :=
  ⟨by decide, by decide, by decide, by decide,
   (C3_roster_suppression c3Inputs (by decide) (by decide) (by decide)).1,
   (C3_roster_suppression c3Inputs (by decide) (by decide) (by decide)).2.2.2⟩

/-- C2 (counterexample): on a run with no standings URL, a parsed roster and
a previously persisted `last_updated`, the code synthesises the zero-point
roster ranking but keeps the old `last_updated` (line 526 only fills it when
it was previously null), refuting the claim that every roster synthesis
advances `last_updated`. -/
theorem C2_counterexample :
    (runMain c2Inputs).ranking =
      [{ team_name := "Kangaroo Kick", team_id := "1", points := 0 }] ∧
    (runMain c2Inputs).last_updated = some "OLDSTAMP" ∧
    c2Inputs.now = "NOWSTAMP" ∧
    (some "OLDSTAMP" : Option String) ≠ some "NOWSTAMP" := by
  decide

/-- C2 (amended): `last_checked` is set to the current timestamp on every
run.  `last_updated` is set to the current timestamp exactly when a ranking
was built this run with a located standings URL (state 1, or roster
synthesis while the standings URL was located); when no standings URL was
located and a roster ranking is synthesised, `last_updated` is filled with
the current timestamp only if it was previously null, and otherwise keeps
its prior value. -/
theorem C2_amended (i : Inputs) :
    (runMain i).last_checked = some i.now ∧
    (runMain i).last_updated =
      (if pyTruthyO i.latestUrl then
        (if state1Of i = true ∨ rosterGroupedOf i ≠ [] then some i.now
         else (existingOf i).last_updated)
       else if rosterGroupedOf i ≠ [] then
         pyOrO (existingOf i).last_updated (some i.now)
       else (existingOf i).last_updated) := by
  constructor
  · unfold runMain
    split_ifs <;> first
      | rfl
      | (split <;> rfl)
  · unfold runMain
    split_ifs <;>
      first
        | rfl
        | (split <;> rfl)
        | (split <;> simp_all [state1Of])
        | simp_all [state1Of]

/-- C6 (counterexample): the rating-change filter uses the individuals of
the previously persisted snapshot, not the current run's post-merge
individuals: with fetched members 100, 200, 300, prior individuals {100}
and current individuals {200}, the saved `sl_changes` is the member-100
entry while the claim demands exactly the member-200 entry. -/
theorem C6_counterexample :
    (runMain c6Inputs).individuals.map (fun p => p.player_number) = ["200"] ∧
    (runMain c6Inputs).sl_changes = [mkChange "100"] ∧
    ([mkChange "100", mkChange "200", mkChange "300"].filter (fun c =>
      ((runMain c6Inputs).individuals.map (fun p => p.player_number)).contains
        c.member_number)) = [mkChange "200"] ∧
    ([mkChange "100"] : List SlChange) ≠ [mkChange "200"] := by
  decide

/-- C6 (amended): the rating-change report is consulted only on runs where a
standings URL was located, in which case the saved `sl_changes` is the
fetched list filtered to member numbers present in the previously persisted
snapshot's individuals (an empty list when the fetch or parse failed); on
runs without a standings URL the prior `sl_changes` is retained. -/
theorem C6_amended (i : Inputs) :
    (runMain i).sl_changes =
      (if pyTruthyO i.latestUrl then extract_sl_changes i.slFetch i.prior
       else (existingOf i).sl_changes) ∧
    (∀ P, extract_sl_changes none P = []) ∧
    (∀ cs P, extract_sl_changes (some cs) P =
      cs.filter (fun c => (memberSetOf P).contains c.member_number)) := by
  refine ⟨?_, fun P => rfl, fun cs P => rfl⟩
  unfold runMain
  split_ifs <;>
    first
      | rfl
      | (split <;> rfl)

/-- Witness instantiating `C2_amended` at the concrete C2 check run. -/
theorem C2_witness :
    (runMain c2Inputs).last_checked = some c2Inputs.now ∧
    (runMain c2Inputs).last_updated =
      (if pyTruthyO c2Inputs.latestUrl then
        (if state1Of c2Inputs = true ∨ rosterGroupedOf c2Inputs ≠ [] then some c2Inputs.now
         else (existingOf c2Inputs).last_updated)
       else if rosterGroupedOf c2Inputs ≠ [] then
         pyOrO (existingOf c2Inputs).last_updated (some c2Inputs.now)
       else (existingOf c2Inputs).last_updated) :=
  C2_amended c2Inputs

/-- Witness instantiating `C6_amended` at the concrete C6 check run. -/
theorem C6_witness :
    (runMain c6Inputs).sl_changes =
      (if pyTruthyO c6Inputs.latestUrl then
        extract_sl_changes c6Inputs.slFetch c6Inputs.prior
       else (existingOf c6Inputs).sl_changes) :=
  (C6_amended c6Inputs).1

/-- Witness instantiating `C9_no_prior_empty` at a concrete fetched list. -/
theorem C9_witness :
    extract_sl_changes (some [mkChange "100"]) none = [] :=
  C9_no_prior_empty (some [mkChange "100"])

end JpaRanking
